import Mathlib

/-!
Verification of the grid occupancy engine of the grid_fp floorplanning GUI
(src/main.py).  The engine state is a set of placed blocks plus a
GRID_WIDTH x GRID_HEIGHT occupancy table mapping each cell to the identity of
the occupying block (or nothing).  The definitions below are a shallow
embedding of the Python functions: the occupancy table grid_state (a
GRID_WIDTH list of GRID_HEIGHT lists) is modelled as a function from integer
coordinates to Option Nat, Python object ids are modelled as explicit Nat
identities, and the GUI drawing calls are dropped while their grid_state
mutations are kept.
-/

/-- Python max over a list of integers: max of a nonempty list, 0 as an
unused default for the empty list (Python max raises there; every block
shape in the program is nonempty). -/
def pymax : List Int → Int
  | [] => 0
  | a :: l => l.foldl max a

/-- Integers from a to b inclusive, the translation of Python
range(a, b + 1) as used by the loops of can_move. -/
def rangeInt (a b : Int) : List Int :=
  (List.range (b + 1 - a).toNat).map fun (i : Nat) => a + (i : Int)

/-- Footprint synthesized by read_block_config (src/main.py line 52):
buttons = [(dx, dy) for dy in range(height) for dx in range(width)], the
full width x height rectangle of unit cells. -/
def rectShape (w h : Nat) : List (Int × Int) :=
  (List.range h).flatMap fun (dy : Nat) => (List.range w).map fun (dx : Nat) =>
    ((dx : Int), (dy : Int))

/-- A placed block: the BlockObject of src/main.py lines 85-112.  The data
dict fields cell_name, x, y, orientation are fields here; shape_ids (canvas
render handles) are presentation state and dropped; block_shape is the
shape field; the Python object identity id(block) is the explicit id
field. -/
structure Block where
  id : Nat
  cell_name : String
  x : Int
  y : Int
  orientation : String
  shape : List (Int × Int)
deriving DecidableEq

/-- Cached bounding box urx_in_canvas = x + max dx over the footprint
(src/main.py lines 97, 105); recomputed from the anchor on demand, which
matches the source because update_location recomputes it whenever the
anchor changes and block_shape itself is never mutated. -/
def Block.urx (b : Block) : Int := b.x + pymax (b.shape.map Prod.fst)

/-- Cached bounding box ury_in_canvas = y + max dy over the footprint. -/
def Block.ury (b : Block) : Int := b.y + pymax (b.shape.map Prod.snd)

/-- Left edge llx_in_canvas = x. -/
def Block.llx (b : Block) : Int := b.x

/-- Bottom edge lly_in_canvas = y. -/
def Block.lly (b : Block) : Int := b.y

/-- Pointwise update of the occupancy table, the translation of the Python
assignment grid_state[x][y] = v. -/
def updOcc (o : Int → Int → Option Nat) (x y : Int) (v : Option Nat) :
    Int → Int → Option Nat :=
  fun a c => if a = x ∧ c = y then v else o a c

/-- The grid_state mutations of draw_block (src/main.py lines 666-668 and
683-685): every footprint cell of the block is marked with the block
identity.  Canvas drawing is dropped. -/
def drawOcc (occ : Int → Int → Option Nat) (b : Block) : Int → Int → Option Nat :=
  b.shape.foldl (fun o p => updOcc o (b.x + p.1) (b.y + p.2) (some b.id)) occ

/-- The cleanup loop of move (src/main.py lines 355-357): every footprint
cell of the block at its current anchor is cleared. -/
def clearOcc (occ : Int → Int → Option Nat) (b : Block) : Int → Int → Option Nat :=
  b.shape.foldl (fun o p => updOcc o (b.x + p.1) (b.y + p.2) none) occ

/-- The hypothetical occupancy snapshot of can_move (src/main.py lines
309-313): a deep copy of grid_state with every cell holding a selected
block identity cleared. -/
def snapOf (occ : Int → Int → Option Nat) (ids : List Nat) : Int → Int → Option Nat :=
  fun x y =>
    match occ x y with
    | some i => if i ∈ ids then none else some i
    | none => none

/-- is_position_free (src/main.py lines 334-344): true when the position is
inside the W x H table and the given snapshot holds nothing there, false
otherwise (the warning dialogs are dropped). -/
def is_position_free (W H : Nat) (snap : Int → Int → Option Nat) (x y : Int) : Bool :=
  if 0 ≤ x ∧ x < (W : Int) ∧ 0 ≤ y ∧ y < (H : Int) then snap x y == none else false

/-- is_legal_location (src/main.py lines 584-590): every footprint cell of
the named shape, translated to the anchor, must be inside the grid and
unoccupied; there is no parameter excluding a block identity from the
collision test.  SB is the SHAPE_BUTTONS catalog. -/
def is_legal_location (W H : Nat) (occ : Int → Int → Option Nat)
    (SB : String → List (Int × Int)) (x y : Int) (shape : String) : Bool :=
  (SB shape).all fun p =>
    decide (0 ≤ x + p.1) && decide (x + p.1 < (W : Int)) &&
    decide (0 ≤ y + p.2) && decide (y + p.2 < (H : Int)) &&
    (occ (x + p.1) (y + p.2) == none)

/-- Modelled from the spec: the legality predicate as claim C3 describes
it, with an optional excluded block identity ig: a footprint cell passes
when it is in bounds and is empty or occupied exactly by ig.  Stated only
to compare with is_legal_location, which the code actually has. -/
def is_legal_claim (W H : Nat) (occ : Int → Int → Option Nat)
    (SB : String → List (Int × Int)) (x y : Int) (shape : String)
    (ig : Option Nat) : Bool :=
  (SB shape).all fun p =>
    decide (0 ≤ x + p.1) && decide (x + p.1 < (W : Int)) &&
    decide (0 ≤ y + p.2) && decide (y + p.2 < (H : Int)) &&
    (occ (x + p.1) (y + p.2) == none || some (occ (x + p.1) (y + p.2)) == some ig)

/-- The whole engine state of BlockPlacement: grid dimensions, the
occupancy table grid_state, the block_objects collection (as a list of
blocks with distinct identities), and the selected_blocks set kept in its
Python dict insertion order as a list of identities. -/
structure EngineState where
  W : Nat
  H : Nat
  occ : Int → Int → Option Nat
  blocks : List Block
  selected : List Nat

/-- The selected block objects in selection order, resolved against the
block collection. -/
def selBlocks (s : EngineState) : List Block :=
  s.selected.filterMap fun i => s.blocks.find? fun c => c.id == i

/-- The per-block edge scan of can_move (src/main.py lines 315-331): over
the block bounding box shifted by the offset, the loop over y checks the
leading vertical edge column (left column when dx is negative, right
column otherwise) and the loop over x checks the leading horizontal edge
row. -/
def blockEdgeOk (W H : Nat) (snap : Int → Int → Option Nat) (b : Block)
    (dx dy : Int) : Bool :=
  ((rangeInt (b.lly + dy) (b.ury + dy)).all fun y =>
    is_position_free W H snap (if dx < 0 then b.llx + dx else b.urx + dx) y) &&
  ((rangeInt (b.llx + dx) (b.urx + dx)).all fun x =>
    is_position_free W H snap x (if dy < 0 then b.lly + dy else b.ury + dy))

/-- can_move (src/main.py lines 307-332) over an explicit list of selected
blocks: build the snapshot with every selected identity cleared, then
require the edge scan of every selected block to pass. -/
def can_move_sel (W H : Nat) (occ : Int → Int → Option Nat) (sel : List Block)
    (dx dy : Int) : Bool :=
  sel.all fun b => blockEdgeOk W H (snapOf occ (sel.map Block.id)) b dx dy

/-- Modelled from the spec: the exhaustive per-cell check claims C4 and C10
compare can_move against: every footprint cell of every selected block,
shifted by the offset, must be in bounds and free in the given snapshot. -/
def blockFullOk (W H : Nat) (snap : Int → Int → Option Nat) (b : Block)
    (dx dy : Int) : Bool :=
  b.shape.all fun p =>
    decide (0 ≤ b.x + p.1 + dx) && decide (b.x + p.1 + dx < (W : Int)) &&
    decide (0 ≤ b.y + p.2 + dy) && decide (b.y + p.2 + dy < (H : Int)) &&
    (snap (b.x + p.1 + dx) (b.y + p.2 + dy) == none)

/-- Modelled from the spec: the exhaustive check over every selected
block. -/
def full_shift_check (W H : Nat) (snap : Int → Int → Option Nat)
    (sel : List Block) (dx dy : Int) : Bool :=
  sel.all fun b => blockFullOk W H snap b dx dy

/-- One iteration of the commit loop of move (src/main.py lines 353-359):
clear the footprint of the block at its current anchor, shift the anchor,
redraw (which re-marks the footprint at the new anchor). -/
def moveCommitStep (dx dy : Int) (st : EngineState) (bid : Nat) : EngineState :=
  match st.blocks.find? fun c => c.id == bid with
  | none => st
  | some b =>
    let occ1 := clearOcc st.occ b
    let b2 : Block := { b with x := b.x + dx, y := b.y + dy }
    { st with
      occ := drawOcc occ1 b2
      blocks := st.blocks.map fun c => if c.id == bid then b2 else c }

/-- move (src/main.py lines 346-360): reject when nothing is selected,
validate with can_move against the current state, then commit block by
block in selection order.  Returns the Python return value paired with the
state after the call. -/
def move (s : EngineState) (dx dy : Int) : Bool × EngineState :=
  if s.selected.isEmpty then (false, s)
  else if can_move_sel s.W s.H s.occ (selBlocks s) dx dy then
    (true, s.selected.foldl (moveCommitStep dx dy) s)
  else (false, s)

/-- can_move_to (src/main.py lines 414-424): every footprint cell of the
block shifted by the offset must be in bounds and either empty or occupied
by the moving block itself. -/
def can_move_to (W H : Nat) (occ : Int → Int → Option Nat) (b : Block)
    (xo yo : Int) : Bool :=
  b.shape.all fun p =>
    decide (0 ≤ b.x + p.1 + xo) && decide (b.x + p.1 + xo < (W : Int)) &&
    decide (0 ≤ b.y + p.2 + yo) && decide (b.y + p.2 + yo < (H : Int)) &&
    (occ (b.x + p.1 + xo) (b.y + p.2 + yo) == none ||
     occ (b.x + p.1 + xo) (b.y + p.2 + yo) == some b.id)

/-- excel_col_to_index (src/main.py lines 426-431): fold the letters into
col = col * 26 + (letter value + 1), then subtract one for the 0-based
index. -/
def excel_col_to_index (s : String) : Int :=
  (s.toList.foldl
    (fun col c => col * 26 + ((c.toUpper.toNat : Int) - ('A'.toNat : Int) + 1)) 0) - 1

/-- move_to (src/main.py lines 374-412) after the dialog and the regular
expression split of a well-formed target string into its letter group and
digit group: colStr is the letter group and rowNum the parsed digit group.
Requires exactly one selected block; converts the target to grid
coordinates (row 1-indexed in the input), validates with can_move_to, and
commits by clearing the old footprint, shifting the anchor, and
redrawing. -/
def move_to (s : EngineState) (colStr : String) (rowNum : Nat) : Bool × EngineState :=
  match s.selected with
  | [bid] =>
    match s.blocks.find? fun c => c.id == bid with
    | none => (false, s)
    | some b =>
      let col := excel_col_to_index colStr
      let row : Int := (rowNum : Int) - 1
      let xo := col - b.x
      let yo := row - b.y
      if can_move_to s.W s.H s.occ b xo yo then
        let b2 : Block := { b with x := b.x + xo, y := b.y + yo }
        (true,
          { s with
            occ := drawOcc (clearOcc s.occ b) b2
            blocks := s.blocks.map fun c => if c.id == bid then b2 else c })
      else (false, s)
  | _ => (false, s)

/-- swap_block (src/main.py lines 265-270) on the block fields: when the
catalog footprint of the current shape name equals that of the target
shape name, replace the shape name; otherwise warn and leave the block
unchanged. -/
def swap_block (SB : String → List (Int × Int)) (target : String) (b : Block) : Block :=
  if SB b.cell_name = SB target then { b with cell_name := target } else b

/-- One iteration of the swap_main loop: swap the selected block in place
and, when the swap succeeded, redraw it (draw_block re-marks the footprint
cells with the block identity). -/
def swapStep (SB : String → List (Int × Int)) (target : String)
    (st : EngineState) (bid : Nat) : EngineState :=
  match st.blocks.find? fun c => c.id == bid with
  | none => st
  | some b =>
    if SB b.cell_name = SB target then
      let b2 : Block := { b with cell_name := target }
      { st with
        occ := drawOcc st.occ b2
        blocks := st.blocks.map fun c => if c.id == bid then b2 else c }
    else st

/-- swap_main (src/main.py lines 253-263): warn and stop when nothing is
selected or when no target shape has been chosen; otherwise run swap_block
on every selected block.  The Bool records whether the loop ran. -/
def swap_main (SB : String → List (Int × Int)) (s : EngineState)
    (target : Option String) : Bool × EngineState :=
  if s.selected.isEmpty then (false, s)
  else
    match target with
    | none => (false, s)
    | some t => (true, s.selected.foldl (swapStep SB t) s)

/-- The candidate anchor y of step i of the vertical duplication loop:
start_y + i * (interval + block height), where the block height is
max dy + 1 (src/main.py lines 289, 293). -/
def dupCandV (b : Block) (interval i : Nat) : Int :=
  b.y + (i : Int) * ((interval : Int) + (pymax (b.shape.map Prod.snd) + 1))

/-- The candidate anchor x of step i of the horizontal duplication loop:
start_x + i * (interval + block width) (src/main.py lines 288, 301). -/
def dupCandH (b : Block) (interval i : Nat) : Int :=
  b.x + (i : Int) * ((interval : Int) + (pymax (b.shape.map Prod.fst) + 1))

/-- One step of the vertical loop of duplicate_block (src/main.py lines
291-297): candidate anchor y grows by i * (interval + block height); when
it is below the grid height and legal in the current occupancy, a fresh
block with orientation R0 is created, drawn (marking its cells), and
registered.  The accumulator carries the occupancy table and the created
blocks; fresh identities count up from nextId. -/
def dupStepV (SB : String → List (Int × Int)) (W H : Nat) (b : Block)
    (interval nextId : Nat) (acc : (Int → Int → Option Nat) × List Block)
    (i : Nat) : (Int → Int → Option Nat) × List Block :=
  let newY : Int := dupCandV b interval i
  if newY < (H : Int) ∧ is_legal_location W H acc.1 SB b.x newY b.cell_name = true then
    let nb : Block :=
      { id := nextId + acc.2.length, cell_name := b.cell_name, x := b.x, y := newY,
        orientation := "R0", shape := b.shape }
    (drawOcc acc.1 nb, acc.2 ++ [nb])
  else acc

/-- One step of the horizontal loop of duplicate_block (src/main.py lines
299-305). -/
def dupStepH (SB : String → List (Int × Int)) (W H : Nat) (b : Block)
    (interval nextId : Nat) (acc : (Int → Int → Option Nat) × List Block)
    (i : Nat) : (Int → Int → Option Nat) × List Block :=
  let newX : Int := dupCandH b interval i
  if newX < (W : Int) ∧ is_legal_location W H acc.1 SB newX b.y b.cell_name = true then
    let nb : Block :=
      { id := nextId + acc.2.length, cell_name := b.cell_name, x := newX, y := b.y,
        orientation := "R0", shape := b.shape }
    (drawOcc acc.1 nb, acc.2 ++ [nb])
  else acc

/-- duplicate_block in direction V: the Python loop for i in
range(1, GRID_HEIGHT). -/
def duplicate_block_V (SB : String → List (Int × Int)) (W H : Nat)
    (occ0 : Int → Int → Option Nat) (b : Block) (interval nextId : Nat) :
    (Int → Int → Option Nat) × List Block :=
  (List.range' 1 (H - 1)).foldl (dupStepV SB W H b interval nextId) (occ0, [])

/-- duplicate_block in direction H: the Python loop for i in
range(1, GRID_WIDTH). -/
def duplicate_block_H (SB : String → List (Int × Int)) (W H : Nat)
    (occ0 : Int → Int → Option Nat) (b : Block) (interval nextId : Nat) :
    (Int → Int → Option Nat) × List Block :=
  (List.range' 1 (W - 1)).foldl (dupStepH SB W H b interval nextId) (occ0, [])

/-- The persisted record of one block: the data dict fields written by
save_to_file (src/main.py lines 821-825) that load_from_file reads back
(shape_ids is saved too but never read on load, so it is dropped). -/
structure SavedRec where
  cell_name : String
  x : Int
  y : Int
  orientation : String
deriving DecidableEq

/-- save_to_file (src/main.py lines 810-827) as a pure map from the block
collection to the persisted dict: key id(block), value the data record. -/
def save_db (blocks : List Block) : List (Nat × SavedRec) :=
  blocks.map fun b => (b.id, ⟨b.cell_name, b.x, b.y, b.orientation⟩)

/-- Catalog lookup SHAPE_BUTTONS[name] for load: the Python dict access
raises KeyError when the name is absent, modelled by Option. -/
def lookupSB (SB : List (String × List (Int × Int))) (name : String) :
    Option (List (Int × Int)) :=
  (SB.find? fun e => e.1 == name).map Prod.snd

/-- The record-processing loop of load_from_file: each record becomes a
BlockObject with a fresh identity (Python id values, modelled by a
counter); a record whose shape name is not in the catalog raises KeyError,
modelled as an error carrying the missing name. -/
def load_go (SB : List (String × List (Int × Int))) :
    List (Nat × SavedRec) → Nat → Except String (List Block)
  | [], _ => .ok []
  | r :: rest, n =>
    match lookupSB SB r.2.cell_name with
    | none => .error r.2.cell_name
    | some shape =>
      match load_go SB rest (n + 1) with
      | .error e => .error e
      | .ok bs =>
        .ok ({ id := n, cell_name := r.2.cell_name, x := r.2.x, y := r.2.y,
               orientation := r.2.orientation, shape := shape } :: bs)

/-- Whether a persisted record names the reserved Blockage pseudo-shape. -/
def isBlockageRec (r : Nat × SavedRec) : Bool := r.2.cell_name == "Blockage"

/-- load_from_file (src/main.py lines 773-800) on the persisted records:
Blockage records are processed in a first pass and everything else in a
second pass (so blockage shapes do not cover text), each record
reconstructing a block with its saved shape name, anchor and orientation
and a fresh identity. -/
def load_blocks (SB : List (String × List (Int × Int)))
    (db : List (Nat × SavedRec)) (startId : Nat) : Except String (List Block) :=
  load_go SB (db.filter isBlockageRec ++ db.filter fun r => !isBlockageRec r) startId

/-- The structural content of a placement, as the round-trip property
compares it: shape name, anchor and orientation, identity excluded. -/
def tupleOf (b : Block) : String × Int × Int × String :=
  (b.cell_name, b.x, b.y, b.orientation)

/-- Whether the block footprint, translated by the anchor, contains the
cell. -/
def coversCell (b : Block) (x y : Int) : Bool :=
  b.shape.any fun p => b.x + p.1 == x && b.y + p.2 == y

/-- The grid and block agreement invariant of the spec: every in-bounds
cell of the occupancy table holds nothing or the identity of an existing
block whose translated footprint contains the cell, and every footprint
cell of every existing block is marked with that block identity. -/
def gridAgrees (s : EngineState) : Bool :=
  ((rangeInt 0 ((s.W : Int) - 1)).all fun x =>
    (rangeInt 0 ((s.H : Int) - 1)).all fun y =>
      match s.occ x y with
      | none => true
      | some i => s.blocks.any fun b => b.id == i && coversCell b x y) &&
  (s.blocks.all fun b => b.shape.all fun p => s.occ (b.x + p.1) (b.y + p.2) == some b.id)

/-- Concrete state for the batch-move commit analysis: a 3 x 1 grid with
two unit blocks, block 1 at cell 0 0 and block 2 at cell 1 0, both
selected in scan order, the occupancy table marking both cells. -/
def exMoveState : EngineState :=
  { W := 3, H := 1,
    occ := fun x y =>
      if x == 0 && y == 0 then some 1
      else if x == 1 && y == 0 then some 2
      else none,
    blocks := [⟨1, "A", 0, 0, "R0", [(0, 0)]⟩, ⟨2, "A", 1, 0, "R0", [(0, 0)]⟩],
    selected := [1, 2] }

/-- Occupancy table for the legality counterexample: 2 x 2 grid with block
5 on cell 0 0. -/
def exLegalOcc : Int → Int → Option Nat :=
  fun x y => if x == 0 && y == 0 then some 5 else none

/-- One-shape catalog for the legality counterexample: shape U is a single
unit cell. -/
def exLegalSB : String → List (Int × Int) :=
  fun n => if n == "U" then [(0, 0)] else []

/-- Concrete state for the can_move coverage counterexample: a 4 x 2 grid,
block 1 a 2 x 2 rectangle at cell 0 0 and selected, block 2 a unit block
at cell 2 0 in the way of the interior of a two-step shift. -/
def exCoverState : EngineState :=
  { W := 4, H := 2,
    occ := fun x y =>
      if x == 2 && y == 0 then some 2
      else if (x == 0 || x == 1) && (y == 0 || y == 1) then some 1
      else none,
    blocks := [⟨1, "A", 0, 0, "R0", rectShape 2 2⟩, ⟨2, "B", 2, 0, "R0", [(0, 0)]⟩],
    selected := [1] }

/-- One-shape catalog for the duplication scenario: shape A is a single
unit cell. -/
def exDupSB : String → List (Int × Int) :=
  fun n => if n == "A" then [(0, 0)] else []

/-- The block of the duplication scenario: shape A at cell 0 0. -/
def exDupBlock : Block := ⟨1, "A", 0, 0, "R0", [(0, 0)]⟩

/-- Starting occupancy of the duplication scenario: only the source block
cell is occupied on the 10-row grid. -/
def exDupOcc : Int → Int → Option Nat :=
  fun x y => if x == 0 && y == 0 then some 1 else none

/-- Catalog for the swap counterexample as a function: shapes A and B share
the unit footprint. -/
def exSwapSB : String → List (Int × Int) :=
  fun n => if n == "A" || n == "B" then [(0, 0)] else []

/-- Concrete state for the swap counterexample: two unit blocks of shape A,
both selected, so the selection size is 2. -/
def exSwapState : EngineState :=
  { W := 3, H := 1,
    occ := fun x y =>
      if x == 0 && y == 0 then some 1
      else if x == 1 && y == 0 then some 2
      else none,
    blocks := [⟨1, "A", 0, 0, "R0", [(0, 0)]⟩, ⟨2, "A", 1, 0, "R0", [(0, 0)]⟩],
    selected := [1, 2] }

/-- Concrete state for the move-to witness: a 3 x 3 grid with one selected
unit block at cell 0 0. -/
def exMoveToState : EngineState :=
  { W := 3, H := 3,
    occ := fun x y => if x == 0 && y == 0 then some 1 else none,
    blocks := [⟨1, "A", 0, 0, "R0", [(0, 0)]⟩],
    selected := [1] }

/-- Association-list catalog for the persistence theorems: shapes A and
Blockage. -/
def exLoadSB : List (String × List (Int × Int)) :=
  [("A", [(0, 0)]), ("Blockage", [(0, 0)])]

/-- Blocks for the round-trip witness: one Blockage block and two shape A
blocks in mixed order. -/
def exSaveBlocks : List Block :=
  [⟨10, "A", 0, 0, "R0", [(0, 0)]⟩,
   ⟨11, "Blockage", 1, 1, "R0", [(0, 0)]⟩,
   ⟨12, "A", 2, 2, "MX", [(0, 0)]⟩]

/-- Persisted records for the unknown-shape counterexample: a record naming
the absent shape Ghost followed by a record naming the known shape A. -/
def exGhostDb : List (Nat × SavedRec) :=
  [(1, ⟨"Ghost", 0, 0, "R0"⟩), (2, ⟨"A", 1, 1, "R0"⟩)]

/-- Concrete state for the edge-versus-full equivalence witness: a 3 x 3
grid with one selected unit block at cell 1 1. -/
def exEqState : EngineState :=
  { W := 3, H := 3,
    occ := fun x y => if x == 1 && y == 1 then some 7 else none,
    blocks := [⟨7, "A", 1, 1, "R0", rectShape 1 1⟩],
    selected := [7] }

/-- Occupancy table for the edge-versus-full counterexample on a broken
agreement state: the selected 2 x 2 block 1 at cell 0 0 has its footprint
cells marked with its identity except cell 1 0, which holds the foreign
identity 9 — the kind of orphaned marking the move-commit bug of C1
produces. -/
def exBrokenOcc : Int → Int → Option Nat :=
  fun x y =>
    if x == 1 && y == 0 then some 9
    else if (x == 0 || x == 1) && (y == 0 || y == 1) then some 1
    else none

/-- Selection for the edge-versus-full counterexample: the single 2 x 2
rectangle block 1 at cell 0 0. -/
def exBrokenSel : List Block := [⟨1, "A", 0, 0, "R0", rectShape 2 2⟩]

theorem mem_rangeInt {a b x : Int} : x ∈ rangeInt a b ↔ a ≤ x ∧ x ≤ b := by
  unfold rangeInt
  rw [List.mem_map]
  constructor
  · rintro ⟨i, hi, rfl⟩
    rw [List.mem_range] at hi
    omega
  · rintro ⟨h1, h2⟩
    refine ⟨(x - a).toNat, ?_, ?_⟩
    · rw [List.mem_range]
      omega
    · omega

theorem mem_rectShape {w h : Nat} {p : Int × Int} :
    p ∈ rectShape w h ↔ 0 ≤ p.1 ∧ p.1 < (w : Int) ∧ 0 ≤ p.2 ∧ p.2 < (h : Int) := by
  unfold rectShape
  rw [List.mem_flatMap]
  constructor
  · rintro ⟨dy, hdy, hp⟩
    rw [List.mem_map] at hp
    obtain ⟨dx, hdx, rfl⟩ := hp
    rw [List.mem_range] at hdy hdx
    refine ⟨by simp, by simp; omega, by simp, by simp; omega⟩
  · rintro ⟨h1, h2, h3, h4⟩
    refine ⟨p.2.toNat, ?_, ?_⟩
    · rw [List.mem_range]
      omega
    · rw [List.mem_map]
      refine ⟨p.1.toNat, ?_, ?_⟩
      · rw [List.mem_range]
        omega
      · obtain ⟨px, py⟩ := p
        simp at h1 h3 ⊢
        omega

theorem foldl_max_le {a m : Int} {l : List Int} (ha : a ≤ m) (hl : ∀ x ∈ l, x ≤ m) :
    l.foldl max a ≤ m := by
  induction l generalizing a with
  | nil => exact ha
  | cons b t ih =>
    exact ih (by simp [hl b (by simp), ha]) fun x hx => hl x (by simp [hx])

theorem le_foldl_max {a : Int} {l : List Int} : a ≤ l.foldl max a := by
  induction l generalizing a with
  | nil => exact le_refl a
  | cons b t ih => exact le_trans (le_max_left a b) ih

theorem mem_le_foldl_max {a x : Int} {l : List Int} (hx : x ∈ l) : x ≤ l.foldl max a := by
  induction l generalizing a with
  | nil => cases hx
  | cons b t ih =>
    rcases List.mem_cons.mp hx with rfl | hx
    · exact le_trans (le_max_right a x) le_foldl_max
    · exact ih hx

theorem pymax_eq {m : Int} {l : List Int} (hne : l ≠ []) (hm : m ∈ l)
    (hl : ∀ x ∈ l, x ≤ m) : pymax l = m := by
  match l with
  | [] => exact absurd rfl hne
  | a :: t =>
    unfold pymax
    refine le_antisymm (foldl_max_le (hl a (by simp)) fun x hx => hl x (by simp [hx])) ?_
    rcases List.mem_cons.mp hm with rfl | hm
    · exact le_foldl_max
    · exact mem_le_foldl_max hm

theorem rectShape_fst_max {w h : Nat} (hw : 1 ≤ w) (hh : 1 ≤ h) :
    pymax ((rectShape w h).map Prod.fst) = (w : Int) - 1 := by
  have hmem : ((w : Int) - 1, (0 : Int)) ∈ rectShape w h := by
    rw [mem_rectShape]
    refine ⟨by omega, by omega, le_refl 0, by omega⟩
  apply pymax_eq
  · intro hemp
    rw [List.map_eq_nil_iff] at hemp
    exact absurd hemp (List.ne_nil_of_mem hmem)
  · rw [List.mem_map]
    exact ⟨((w : Int) - 1, (0 : Int)), hmem, rfl⟩
  · intro x hx
    rw [List.mem_map] at hx
    obtain ⟨p, hp, rfl⟩ := hx
    rw [mem_rectShape] at hp
    omega

theorem rectShape_snd_max {w h : Nat} (hw : 1 ≤ w) (hh : 1 ≤ h) :
    pymax ((rectShape w h).map Prod.snd) = (h : Int) - 1 := by
  have hmem : ((0 : Int), (h : Int) - 1) ∈ rectShape w h := by
    rw [mem_rectShape]
    refine ⟨le_refl 0, by omega, by omega, by omega⟩
  apply pymax_eq
  · intro hemp
    rw [List.map_eq_nil_iff] at hemp
    exact absurd hemp (List.ne_nil_of_mem hmem)
  · rw [List.mem_map]
    exact ⟨((0 : Int), (h : Int) - 1), hmem, rfl⟩
  · intro x hx
    rw [List.mem_map] at hx
    obtain ⟨p, hp, rfl⟩ := hx
    rw [mem_rectShape] at hp
    omega

theorem is_position_free_iff {W H : Nat} {snap : Int → Int → Option Nat} {x y : Int} :
    is_position_free W H snap x y = true ↔
      (0 ≤ x ∧ x < (W : Int) ∧ 0 ≤ y ∧ y < (H : Int)) ∧ snap x y = none := by
  unfold is_position_free
  by_cases hb : 0 ≤ x ∧ x < (W : Int) ∧ 0 ≤ y ∧ y < (H : Int)
  · simp [hb]
  · simp [hb]

theorem blockEdgeOk_iff {W H : Nat} {snap : Int → Int → Option Nat} {b : Block}
    {dx dy : Int} :
    blockEdgeOk W H snap b dx dy = true ↔
      ((∀ y, b.lly + dy ≤ y → y ≤ b.ury + dy →
          is_position_free W H snap (if dx < 0 then b.llx + dx else b.urx + dx) y = true) ∧
       (∀ x, b.llx + dx ≤ x → x ≤ b.urx + dx →
          is_position_free W H snap x (if dy < 0 then b.lly + dy else b.ury + dy) = true)) := by
  unfold blockEdgeOk
  rw [Bool.and_eq_true, List.all_eq_true, List.all_eq_true]
  constructor
  · rintro ⟨h1, h2⟩
    exact ⟨fun y hy1 hy2 => h1 y (mem_rangeInt.mpr ⟨hy1, hy2⟩),
           fun x hx1 hx2 => h2 x (mem_rangeInt.mpr ⟨hx1, hx2⟩)⟩
  · rintro ⟨h1, h2⟩
    refine ⟨fun y hy => ?_, fun x hx => ?_⟩
    · obtain ⟨hy1, hy2⟩ := mem_rangeInt.mp hy
      exact h1 y hy1 hy2
    · obtain ⟨hx1, hx2⟩ := mem_rangeInt.mp hx
      exact h2 x hx1 hx2

theorem blockFullOk_iff {W H : Nat} {snap : Int → Int → Option Nat} {b : Block}
    {dx dy : Int} :
    blockFullOk W H snap b dx dy = true ↔
      ∀ p ∈ b.shape,
        (0 ≤ b.x + p.1 + dx ∧ b.x + p.1 + dx < (W : Int) ∧
         0 ≤ b.y + p.2 + dy ∧ b.y + p.2 + dy < (H : Int)) ∧
        snap (b.x + p.1 + dx) (b.y + p.2 + dy) = none := by
  unfold blockFullOk
  rw [List.all_eq_true]
  constructor
  · intro hall p hp
    have h := hall p hp
    simp only [Bool.and_eq_true, decide_eq_true_eq, beq_iff_eq] at h
    exact ⟨⟨h.1.1.1.1, h.1.1.1.2, h.1.1.2, h.1.2⟩, h.2⟩
  · intro hall p hp
    have h := hall p hp
    simp only [Bool.and_eq_true, decide_eq_true_eq, beq_iff_eq]
    exact ⟨⟨⟨⟨h.1.1, h.1.2.1⟩, h.1.2.2.1⟩, h.1.2.2.2⟩, h.2⟩

theorem blockEdge_eq_full_of_rect {W H : Nat} {snap : Int → Int → Option Nat}
    {b : Block} {dx dy : Int} {w h : Nat}
    (hw : 1 ≤ w) (hh : 1 ≤ h) (hs : b.shape = rectShape w h)
    (hdx : dx = -1 ∨ dx = 0 ∨ dx = 1) (hdy : dy = -1 ∨ dy = 0 ∨ dy = 1)
    (hin : ∀ p ∈ b.shape, 0 ≤ b.x + p.1 ∧ b.x + p.1 < (W : Int) ∧
      0 ≤ b.y + p.2 ∧ b.y + p.2 < (H : Int))
    (hfree : ∀ p ∈ b.shape, snap (b.x + p.1) (b.y + p.2) = none) :
    blockEdgeOk W H snap b dx dy = blockFullOk W H snap b dx dy := by
  have hurx : b.urx = b.x + (w : Int) - 1 := by
    unfold Block.urx
    rw [hs, rectShape_fst_max hw hh]
    ring
  have hury : b.ury = b.y + (h : Int) - 1 := by
    unfold Block.ury
    rw [hs, rectShape_snd_max hw hh]
    ring
  have hllx : b.llx = b.x := rfl
  have hlly : b.lly = b.y := rfl
  -- The free and in-bounds facts on a cell of the unshifted rectangle.
  have hcell : ∀ cx cy : Int, b.x ≤ cx → cx ≤ b.x + (w : Int) - 1 →
      b.y ≤ cy → cy ≤ b.y + (h : Int) - 1 →
      (0 ≤ cx ∧ cx < (W : Int) ∧ 0 ≤ cy ∧ cy < (H : Int)) ∧ snap cx cy = none := by
    intro cx cy h1 h2 h3 h4
    have hp : (cx - b.x, cy - b.y) ∈ b.shape := by
      rw [hs, mem_rectShape]
      refine ⟨by omega, by omega, by omega, by omega⟩
    have hi := hin _ hp
    have hf := hfree _ hp
    simp only at hi hf
    constructor
    · constructor
      · omega
      constructor
      · omega
      constructor
      · omega
      · omega
    · have : b.x + (cx - b.x) = cx := by ring
      rw [this] at hf
      have h2 : b.y + (cy - b.y) = cy := by ring
      rw [h2] at hf
      exact hf
  rw [← Bool.coe_iff_coe]
  rw [blockEdgeOk_iff, blockFullOk_iff]
  constructor
  · -- Edge scan passes implies every shifted cell passes.
    rintro ⟨hcol, hrow⟩ p hp
    rw [hs, mem_rectShape] at hp
    obtain ⟨hp1, hp2, hp3, hp4⟩ := hp
    set cx := b.x + p.1 + dx with hcx
    set cy := b.y + p.2 + dy with hcy
    by_cases hcin : b.x ≤ cx ∧ cx ≤ b.x + (w : Int) - 1 ∧ b.y ≤ cy ∧ cy ≤ b.y + (h : Int) - 1
    · exact hcell cx cy hcin.1 hcin.2.1 hcin.2.2.1 hcin.2.2.2
    · -- The cell left the old rectangle: it lies on a checked leading edge.
      rcases not_and_or.mp hcin with hc | hrest
      · -- cx < b.x, so dx = -1 and cx is the left column.
        have hdxneg : dx = -1 := by omega
        have hxedge : (if dx < 0 then b.llx + dx else b.urx + dx) = cx := by
          rw [if_pos (by omega), hllx]
          omega
        have := hcol cy (by rw [hlly]; omega) (by rw [hury]; omega)
        rw [hxedge] at this
        exact is_position_free_iff.mp this
      rcases not_and_or.mp hrest with hc | hrest
      · -- cx > b.x + w - 1, so dx = 1 and cx is the right column.
        have hdxpos : dx = 1 := by omega
        have hxedge : (if dx < 0 then b.llx + dx else b.urx + dx) = cx := by
          rw [if_neg (by omega), hurx]
          omega
        have := hcol cy (by rw [hlly]; omega) (by rw [hury]; omega)
        rw [hxedge] at this
        exact is_position_free_iff.mp this
      rcases not_and_or.mp hrest with hc | hc
      · -- cy < b.y, so dy = -1 and cy is the bottom row.
        have hdyneg : dy = -1 := by omega
        have hyedge : (if dy < 0 then b.lly + dy else b.ury + dy) = cy := by
          rw [if_pos (by omega), hlly]
          omega
        have := hrow cx (by rw [hllx]; omega) (by rw [hurx]; omega)
        rw [hyedge] at this
        exact is_position_free_iff.mp this
      · -- cy > b.y + h - 1, so dy = 1 and cy is the top row.
        have hdypos : dy = 1 := by omega
        have hyedge : (if dy < 0 then b.lly + dy else b.ury + dy) = cy := by
          rw [if_neg (by omega), hury]
          omega
        have := hrow cx (by rw [hllx]; omega) (by rw [hurx]; omega)
        rw [hyedge] at this
        exact is_position_free_iff.mp this
  · -- Every shifted cell passes implies the edge scan passes.
    intro hfull
    have hofcell : ∀ cx cy : Int, b.x + dx ≤ cx → cx ≤ b.x + (w : Int) - 1 + dx →
        b.y + dy ≤ cy → cy ≤ b.y + (h : Int) - 1 + dy →
        is_position_free W H snap cx cy = true := by
      intro cx cy h1 h2 h3 h4
      have hp : (cx - b.x - dx, cy - b.y - dy) ∈ b.shape := by
        rw [hs, mem_rectShape]
        refine ⟨by omega, by omega, by omega, by omega⟩
      have := hfull _ hp
      simp only at this
      have e1 : b.x + (cx - b.x - dx) + dx = cx := by ring
      have e2 : b.y + (cy - b.y - dy) + dy = cy := by ring
      rw [e1, e2] at this
      exact is_position_free_iff.mpr this
    constructor
    · intro y hy1 hy2
      rw [hlly] at hy1
      rw [hury] at hy2
      rcases lt_or_ge dx 0 with hc | hc
      · rw [if_pos hc, hllx]
        exact hofcell _ _ (by omega) (by omega) (by omega) (by omega)
      · rw [if_neg (not_lt.mpr hc), hurx]
        exact hofcell _ _ (by omega) (by omega) (by omega) (by omega)
    · intro x hx1 hx2
      rw [hllx] at hx1
      rw [hurx] at hx2
      rcases lt_or_ge dy 0 with hc | hc
      · rw [if_pos hc, hlly]
        exact hofcell _ _ (by omega) (by omega) (by omega) (by omega)
      · rw [if_neg (not_lt.mpr hc), hury]
        exact hofcell _ _ (by omega) (by omega) (by omega) (by omega)

theorem all_congr_mem {α : Type} {l : List α} {f g : α → Bool}
    (h : ∀ x ∈ l, f x = g x) : l.all f = l.all g := by
  induction l with
  | nil => rfl
  | cons a t ih =>
    simp only [List.all_cons]
    rw [h a (by simp), ih fun x hx => h x (by simp [hx])]

theorem is_legal_location_true_iff {W H : Nat} {occ : Int → Int → Option Nat}
    {SB : String → List (Int × Int)} {x y : Int} {shape : String} :
    is_legal_location W H occ SB x y shape = true ↔
      ∀ p ∈ SB shape,
        0 ≤ x + p.1 ∧ x + p.1 < (W : Int) ∧ 0 ≤ y + p.2 ∧ y + p.2 < (H : Int) ∧
        occ (x + p.1) (y + p.2) = none := by
  unfold is_legal_location
  rw [List.all_eq_true]
  constructor
  · intro hall p hp
    have h := hall p hp
    simp only [Bool.and_eq_true, decide_eq_true_eq, beq_iff_eq] at h
    exact ⟨h.1.1.1.1, h.1.1.1.2, h.1.1.2, h.1.2, h.2⟩
  · intro hall p hp
    have h := hall p hp
    simp only [Bool.and_eq_true, decide_eq_true_eq, beq_iff_eq]
    exact ⟨⟨⟨⟨h.1, h.2.1⟩, h.2.2.1⟩, h.2.2.2.1⟩, h.2.2.2.2⟩

theorem is_legal_location_false_iff {W H : Nat} {occ : Int → Int → Option Nat}
    {SB : String → List (Int × Int)} {x y : Int} {shape : String} :
    is_legal_location W H occ SB x y shape = false ↔
      ∃ p ∈ SB shape,
        x + p.1 < 0 ∨ (W : Int) ≤ x + p.1 ∨ y + p.2 < 0 ∨ (H : Int) ≤ y + p.2 ∨
        occ (x + p.1) (y + p.2) ≠ none := by
  rw [← Bool.not_eq_true, is_legal_location_true_iff]
  push_neg
  constructor
  · rintro ⟨p, hp, hfail⟩
    refine ⟨p, hp, ?_⟩
    by_cases h1 : 0 ≤ x + p.1
    · by_cases h2 : x + p.1 < (W : Int)
      · by_cases h3 : 0 ≤ y + p.2
        · by_cases h4 : y + p.2 < (H : Int)
          · have := hfail h1 h2 h3 h4
            right; right; right; right; exact this
          · right; right; right; left; omega
        · right; right; left; omega
      · right; left; omega
    · left; omega
  · rintro ⟨p, hp, hfail⟩
    refine ⟨p, hp, ?_⟩
    intro h1 h2 h3 h4
    rcases hfail with h | h | h | h | h
    · omega
    · omega
    · omega
    · omega
    · exact h

theorem can_move_to_iff {W H : Nat} {occ : Int → Int → Option Nat} {b : Block}
    {xo yo : Int} :
    can_move_to W H occ b xo yo = true ↔
      ∀ p ∈ b.shape,
        0 ≤ b.x + p.1 + xo ∧ b.x + p.1 + xo < (W : Int) ∧
        0 ≤ b.y + p.2 + yo ∧ b.y + p.2 + yo < (H : Int) ∧
        (occ (b.x + p.1 + xo) (b.y + p.2 + yo) = none ∨
         occ (b.x + p.1 + xo) (b.y + p.2 + yo) = some b.id) := by
  unfold can_move_to
  rw [List.all_eq_true]
  constructor
  · intro hall p hp
    have h := hall p hp
    simp only [Bool.and_eq_true, Bool.or_eq_true, decide_eq_true_eq, beq_iff_eq] at h
    exact ⟨h.1.1.1.1, h.1.1.1.2, h.1.1.2, h.1.2, h.2⟩
  · intro hall p hp
    have h := hall p hp
    simp only [Bool.and_eq_true, Bool.or_eq_true, decide_eq_true_eq, beq_iff_eq]
    exact ⟨⟨⟨⟨h.1, h.2.1⟩, h.2.2.1⟩, h.2.2.2.1⟩, h.2.2.2.2⟩

theorem find_eq_of_nodup {blocks : List Block} {bid : Nat} {b c : Block}
    (hnodup : (blocks.map Block.id).Nodup)
    (hfind : blocks.find? (fun d => d.id == bid) = some b)
    (hc : c ∈ blocks) (hcid : c.id = bid) : c = b := by
  induction blocks with
  | nil => cases hc
  | cons a t ih =>
    rw [List.map_cons, List.nodup_cons] at hnodup
    rw [List.find?_cons] at hfind
    by_cases ha : (a.id == bid) = true
    · simp only [ha] at hfind
      have hab : a = b := Option.some.inj hfind
      subst hab
      rcases List.mem_cons.mp hc with rfl | hct
      · rfl
      · exfalso
        apply hnodup.1
        rw [List.mem_map]
        refine ⟨c, hct, ?_⟩
        rw [hcid]
        exact (beq_iff_eq.mp ha).symm
    · rw [Bool.not_eq_true] at ha
      simp only [ha] at hfind
      rcases List.mem_cons.mp hc with rfl | hct
      · simp [hcid] at ha
      · exact ih hnodup.2 hfind hct

theorem swapStep_blocks {SB : String → List (Int × Int)} {t : String}
    {st : EngineState} {bid : Nat}
    (hnodup : (st.blocks.map Block.id).Nodup) :
    (swapStep SB t st bid).blocks =
      st.blocks.map fun c =>
        if c.id = bid ∧ SB c.cell_name = SB t then { c with cell_name := t } else c := by
  unfold swapStep
  cases hfind : st.blocks.find? fun c => c.id == bid with
  | none =>
    have hnone : ∀ c ∈ st.blocks, c.id ≠ bid := by
      intro c hc hceq
      have h := List.find?_eq_none.mp hfind c hc
      simp [hceq] at h
    simp only
    have hmap : st.blocks.map
        (fun c => if c.id = bid ∧ SB c.cell_name = SB t then { c with cell_name := t } else c) =
        st.blocks.map id := by
      apply List.map_congr_left
      intro c hc
      rw [if_neg]
      · rfl
      · intro hcon
        exact hnone c hc hcon.1
    rw [hmap, List.map_id]
  | some b =>
    simp only []
    by_cases hsw : SB b.cell_name = SB t
    · rw [if_pos hsw]
      simp only
      apply List.map_congr_left
      intro c hc
      by_cases hcb : (c.id == bid) = true
      · have hceq : c = b := find_eq_of_nodup hnodup hfind hc (beq_iff_eq.mp hcb)
        rw [if_pos hcb, if_pos ⟨beq_iff_eq.mp hcb, hceq ▸ hsw⟩, hceq]
      · rw [if_neg hcb, if_neg]
        intro hcon
        exact hcb (beq_iff_eq.mpr hcon.1)
    · rw [if_neg hsw]
      have hmap : st.blocks.map
          (fun c => if c.id = bid ∧ SB c.cell_name = SB t then { c with cell_name := t } else c) =
          st.blocks.map id := by
        apply List.map_congr_left
        intro c hc
        rw [if_neg]
        · rfl
        · intro hcon
          have hceq : c = b := find_eq_of_nodup hnodup hfind hc hcon.1
          exact hsw (hceq ▸ hcon.2)
      rw [hmap, List.map_id]

theorem swapStep_ids {SB : String → List (Int × Int)} {t : String}
    {st : EngineState} {bid : Nat}
    (hnodup : (st.blocks.map Block.id).Nodup) :
    (swapStep SB t st bid).blocks.map Block.id = st.blocks.map Block.id := by
  rw [swapStep_blocks hnodup, List.map_map]
  apply List.map_congr_left
  intro c hc
  by_cases hcon : c.id = bid ∧ SB c.cell_name = SB t
  · simp [hcon]
  · simp [if_neg hcon]

theorem swapFold_blocks {SB : String → List (Int × Int)} {t : String}
    (sel : List Nat) (st : EngineState)
    (hnodup : (st.blocks.map Block.id).Nodup) :
    (sel.foldl (swapStep SB t) st).blocks =
      st.blocks.map fun c =>
        if c.id ∈ sel ∧ SB c.cell_name = SB t then { c with cell_name := t } else c := by
  induction sel generalizing st with
  | nil =>
    rw [List.foldl_nil]
    have hmap : st.blocks.map
        (fun c => if c.id ∈ ([] : List Nat) ∧ SB c.cell_name = SB t
          then { c with cell_name := t } else c) = st.blocks.map id := by
      apply List.map_congr_left
      intro c hc
      rw [if_neg]
      · rfl
      · intro hcon
        exact List.not_mem_nil c.id hcon.1
    rw [hmap, List.map_id]
  | cons bid rest ih =>
    rw [List.foldl_cons]
    have hids := @swapStep_ids SB t st bid hnodup
    have ihr := ih (swapStep SB t st bid) (by rw [hids]; exact hnodup)
    rw [ihr, swapStep_blocks hnodup, List.map_map]
    apply List.map_congr_left
    intro c hc
    simp only [Function.comp_apply]
    by_cases hS : SB c.cell_name = SB t
    · by_cases hA : c.id = bid
      · have hstep : (if c.id = bid ∧ SB c.cell_name = SB t
            then { c with cell_name := t } else c) = { c with cell_name := t } :=
          if_pos ⟨hA, hS⟩
        rw [hstep]
        by_cases hB : c.id ∈ rest
        · rw [if_pos ⟨hB, rfl⟩, if_pos ⟨List.mem_cons.mpr (Or.inl hA), hS⟩]
        · rw [if_neg fun hcon => hB hcon.1, if_pos ⟨List.mem_cons.mpr (Or.inl hA), hS⟩]
      · have hstep : (if c.id = bid ∧ SB c.cell_name = SB t
            then { c with cell_name := t } else c) = c :=
          if_neg fun hcon => hA hcon.1
        rw [hstep]
        by_cases hB : c.id ∈ rest
        · rw [if_pos ⟨hB, hS⟩, if_pos ⟨List.mem_cons.mpr (Or.inr hB), hS⟩]
        · rw [if_neg fun hcon => hB hcon.1, if_neg]
          intro hcon
          rcases List.mem_cons.mp hcon.1 with h | h
          · exact hA h
          · exact hB h
    · have hstep : (if c.id = bid ∧ SB c.cell_name = SB t
          then { c with cell_name := t } else c) = c :=
        if_neg fun hcon => hS hcon.2
      rw [hstep, if_neg fun hcon => hS hcon.2, if_neg fun hcon => hS hcon.2]

theorem load_go_ok_map {SB : List (String × List (Int × Int))} :
    ∀ {l : List (Nat × SavedRec)} {n : Nat} {bs : List Block},
    load_go SB l n = .ok bs →
    bs.map tupleOf = l.map fun r => (r.2.cell_name, r.2.x, r.2.y, r.2.orientation)
  | [], n, bs, h => by
    obtain rfl := Except.ok.inj h.symm
    rfl
  | r :: rest, n, bs, h => by
    unfold load_go at h
    cases hlk : lookupSB SB r.2.cell_name with
    | none =>
      rw [hlk] at h
      cases h
    | some shape =>
      rw [hlk] at h
      cases hrec : load_go SB rest (n + 1) with
      | error e =>
        rw [hrec] at h
        cases h
      | ok bs2 =>
        rw [hrec] at h
        obtain rfl := Except.ok.inj h.symm
        rw [List.map_cons, List.map_cons, load_go_ok_map hrec]
        rfl

theorem load_go_isOk {SB : List (String × List (Int × Int))} :
    ∀ {l : List (Nat × SavedRec)} {n : Nat},
    (load_go SB l n).isOk = true ↔
      ∀ r ∈ l, (lookupSB SB r.2.cell_name).isSome = true
  | [], n => by
    simp [load_go, Except.isOk, Except.toBool]
  | r :: rest, n => by
    unfold load_go
    cases hlk : lookupSB SB r.2.cell_name with
    | none =>
      simp only [Except.isOk, Except.toBool]
      constructor
      · intro h
        cases h
      · intro h
        have := h r (by simp)
        rw [hlk] at this
        cases this
    | some shape =>
      cases hrec : load_go SB rest (n + 1) with
      | error e =>
        simp only [Except.isOk, Except.toBool]
        constructor
        · intro h
          cases h
        · intro h
          have hall : ∀ r2 ∈ rest, (lookupSB SB r2.2.cell_name).isSome = true :=
            fun r2 hr2 => h r2 (by simp [hr2])
          have := (@load_go_isOk SB rest (n + 1)).mpr hall
          rw [hrec] at this
          cases this
      | ok bs2 =>
        simp only [Except.isOk, Except.toBool]
        constructor
        · intro h r2 hr2
          rcases List.mem_cons.mp hr2 with rfl | hr2
          · rw [hlk]
            rfl
          · have hall := (@load_go_isOk SB rest (n + 1)).mp (by rw [hrec]; rfl)
            exact hall r2 hr2
        · intro h
          trivial

/-- Claim C1 (code bug).  The spec states a grid and block agreement
invariant for every reachable state.  The commit loop of move breaks it:
with unit blocks 1 at cell 0 0 and 2 at cell 1 0 both selected (in scan
order) on a 3 x 1 grid, moving by offset 1 0 succeeds, yet afterwards the
cell 1 0, now covered by block 1, holds nothing: block 2 cleared its old
footprint after block 1 had already been redrawn onto it.  The invariant
holds before the move and fails after it. -/
theorem C1_move_breaks_grid_agreement :
    gridAgrees exMoveState = true ∧
    (move exMoveState 1 0).1 = true ∧
    gridAgrees (move exMoveState 1 0).2 = false :=
  ⟨by decide, by decide, by decide⟩

/-- Claim C2 (code bug).  Batch-move atomicity: on the same failing input
as C1 the move succeeds and every selected anchor shifts by exactly the
offset, but the occupancy grid does not reflect the new positions: the
cell 1 0 occupied by moved block 1 holds nothing (while cell 2 0 correctly
holds block 2). -/
theorem C2_move_grid_does_not_reflect_new_positions :
    (move exMoveState 1 0).1 = true ∧
    ((move exMoveState 1 0).2.blocks.map fun b => (b.id, b.x, b.y)) =
      [(1, 1, 0), (2, 2, 0)] ∧
    (move exMoveState 1 0).2.occ 1 0 = none ∧
    (move exMoveState 1 0).2.occ 2 0 = some 2 :=
  ⟨by decide, by decide, by decide, by decide⟩

/-- Claim C3, counterexample.  The claim asserts is_legal_location supports
excluding a block identity: on a 2 x 2 grid where block 5 occupies exactly
the tested cell, the claimed predicate with excluded identity 5 accepts the
placement, but the code predicate returns false: it has no exclusion
parameter and rejects any occupied cell. -/
theorem C3_no_exclusion_counterexample :
    is_legal_claim 2 2 exLegalOcc exLegalSB 0 0 "U" (some 5) = true ∧
    is_legal_location 2 2 exLegalOcc exLegalSB 0 0 "U" = false :=
  ⟨by decide, by decide⟩

/-- Claim C3, amended.  is_legal_location returns false if and only if at
least one absolute footprint cell lies outside the grid or is occupied by
any block; there is no excluded identity. -/
theorem C3_legality_gate_amended (W H : Nat) (occ : Int → Int → Option Nat)
    (SB : String → List (Int × Int)) (x y : Int) (shape : String) :
    is_legal_location W H occ SB x y shape = false ↔
      ∃ p ∈ SB shape,
        x + p.1 < 0 ∨ (W : Int) ≤ x + p.1 ∨ y + p.2 < 0 ∨ (H : Int) ≤ y + p.2 ∨
        occ (x + p.1) (y + p.2) ≠ none :=
  is_legal_location_false_iff

/-- Claim C4, counterexample.  can_move is not an exhaustive per-cell
check: for the 2 x 2 selected block at cell 0 0 shifted by offset 2 0 on a
4 x 2 grid with a non-selected unit block at cell 2 0, the edge scan passes
(it only looks at the leading column x = 3 and leading row y = 1) although
the shifted footprint cell 2 0 is occupied in the cleared snapshot. -/
theorem C4_edge_scan_misses_interior_cell :
    can_move_sel 4 2 exCoverState.occ (selBlocks exCoverState) 2 0 = true ∧
    full_shift_check 4 2
      (snapOf exCoverState.occ ((selBlocks exCoverState).map Block.id))
      (selBlocks exCoverState) 2 0 = false :=
  ⟨by decide, by decide⟩

/-- Claim C4, amended.  can_move returns true if and only if, for every
selected block, every cell of the leading vertical edge column and of the
leading horizontal edge row of the bounding box shifted by the offset is
inside the grid and free in the snapshot with all selected identities
cleared — an edge scan, not a scan of every shifted footprint cell. -/
theorem C4_can_move_is_edge_scan (W H : Nat) (occ : Int → Int → Option Nat)
    (sel : List Block) (dx dy : Int) :
    can_move_sel W H occ sel dx dy = true ↔
      ∀ b ∈ sel,
        (∀ y, b.lly + dy ≤ y → y ≤ b.ury + dy →
          is_position_free W H (snapOf occ (sel.map Block.id))
            (if dx < 0 then b.llx + dx else b.urx + dx) y = true) ∧
        (∀ x, b.llx + dx ≤ x → x ≤ b.urx + dx →
          is_position_free W H (snapOf occ (sel.map Block.id)) x
            (if dy < 0 then b.lly + dy else b.ury + dy) = true) := by
  unfold can_move_sel
  rw [List.all_eq_true]
  constructor
  · intro hall b hb
    exact blockEdgeOk_iff.mp (hall b hb)
  · intro hall b hb
    exact blockEdgeOk_iff.mpr (hall b hb)

/-- Claim C5 (confirmed).  Duplication is generate-and-filter in both
directions: a step of the vertical (resp. horizontal) loop whose candidate
anchor fails the grid-dimension guard or the legality check leaves the
accumulated state unchanged (so later steps are still probed), and a step
that passes creates exactly one fresh block with orientation R0 at the
candidate anchor stepped by i * (interval + block extent) along the chosen
axis and draws it; concretely, duplicating the unit block at cell 0 0
vertically with interval 0 on a 10-row grid creates nine new blocks at
rows 1 through 9, and horizontally nine new blocks at columns 1
through 9. -/
theorem C5_duplication_generate_and_filter :
    (∀ (SB : String → List (Int × Int)) (W H : Nat) (b : Block) (k n : Nat)
        (acc : (Int → Int → Option Nat) × List Block) (i : Nat),
      ¬ (dupCandV b k i < (H : Int) ∧
          is_legal_location W H acc.1 SB b.x (dupCandV b k i) b.cell_name = true) →
        dupStepV SB W H b k n acc i = acc) ∧
    (∀ (SB : String → List (Int × Int)) (W H : Nat) (b : Block) (k n : Nat)
        (acc : (Int → Int → Option Nat) × List Block) (i : Nat),
      (dupCandV b k i < (H : Int) ∧
          is_legal_location W H acc.1 SB b.x (dupCandV b k i) b.cell_name = true) →
        dupStepV SB W H b k n acc i =
          (drawOcc acc.1 ⟨n + acc.2.length, b.cell_name, b.x, dupCandV b k i, "R0", b.shape⟩,
           acc.2 ++ [⟨n + acc.2.length, b.cell_name, b.x, dupCandV b k i, "R0", b.shape⟩])) ∧
    (∀ (SB : String → List (Int × Int)) (W H : Nat) (b : Block) (k n : Nat)
        (acc : (Int → Int → Option Nat) × List Block) (i : Nat),
      ¬ (dupCandH b k i < (W : Int) ∧
          is_legal_location W H acc.1 SB (dupCandH b k i) b.y b.cell_name = true) →
        dupStepH SB W H b k n acc i = acc) ∧
    (∀ (SB : String → List (Int × Int)) (W H : Nat) (b : Block) (k n : Nat)
        (acc : (Int → Int → Option Nat) × List Block) (i : Nat),
      (dupCandH b k i < (W : Int) ∧
          is_legal_location W H acc.1 SB (dupCandH b k i) b.y b.cell_name = true) →
        dupStepH SB W H b k n acc i =
          (drawOcc acc.1 ⟨n + acc.2.length, b.cell_name, dupCandH b k i, b.y, "R0", b.shape⟩,
           acc.2 ++ [⟨n + acc.2.length, b.cell_name, dupCandH b k i, b.y, "R0", b.shape⟩])) ∧
    ((duplicate_block_V exDupSB 10 10 exDupOcc exDupBlock 0 100).2.map
      fun nb => (nb.x, nb.y, nb.orientation)) =
      [(0, 1, "R0"), (0, 2, "R0"), (0, 3, "R0"), (0, 4, "R0"), (0, 5, "R0"),
       (0, 6, "R0"), (0, 7, "R0"), (0, 8, "R0"), (0, 9, "R0")] ∧
    ((duplicate_block_H exDupSB 10 10 exDupOcc exDupBlock 0 100).2.map
      fun nb => (nb.x, nb.y, nb.orientation)) =
      [(1, 0, "R0"), (2, 0, "R0"), (3, 0, "R0"), (4, 0, "R0"), (5, 0, "R0"),
       (6, 0, "R0"), (7, 0, "R0"), (8, 0, "R0"), (9, 0, "R0")] := by
  refine ⟨?_, ?_, ?_, ?_, by decide, by decide⟩
  · intro SB W H b k n acc i hcond
    simp only [dupStepV]
    rw [if_neg hcond]
  · intro SB W H b k n acc i hcond
    simp only [dupStepV]
    rw [if_pos hcond]
  · intro SB W H b k n acc i hcond
    simp only [dupStepH]
    rw [if_neg hcond]
  · intro SB W H b k n acc i hcond
    simp only [dupStepH]
    rw [if_pos hcond]

/-- Witness for C5: at step 12 of the scenario the vertical candidate
row 12 and the horizontal candidate column 12 are both outside the
10 x 10 grid, so both steps leave the accumulator unchanged. -/
theorem C5_witness :
    dupStepV exDupSB 10 10 exDupBlock 0 100 (exDupOcc, []) 12 = (exDupOcc, []) ∧
    dupStepH exDupSB 10 10 exDupBlock 0 100 (exDupOcc, []) 12 = (exDupOcc, []) :=
  ⟨C5_duplication_generate_and_filter.1 exDupSB 10 10 exDupBlock 0 100 (exDupOcc, []) 12
    (by decide),
   C5_duplication_generate_and_filter.2.2.1 exDupSB 10 10 exDupBlock 0 100 (exDupOcc, []) 12
    (by decide)⟩

/-- Claim C6, counterexample.  The claim asserts swap requires exactly one
selected block and fails with a selection-count error otherwise: with two
unit blocks of shape A selected and shape B (same unit footprint) as the
target, swap_main proceeds and swaps both blocks instead of failing. -/
theorem C6_swap_accepts_multi_selection :
    exSwapState.selected.length = 2 ∧
    (swap_main exSwapSB exSwapState (some "B")).1 = true ∧
    ((swap_main exSwapSB exSwapState (some "B")).2.blocks.map Block.cell_name) =
      ["B", "B"] :=
  ⟨by decide, by decide, by decide⟩

/-- Claim C6, amended.  swap_main fails only when nothing is selected or no
target shape was chosen; otherwise it runs on every selected block, and
each selected block has its shape name replaced by the target exactly when
the catalog footprint of its current shape equals that of the target,
keeping identity, anchor, orientation, and footprint; every other block is
unchanged. -/
theorem C6_swap_per_block_semantics (SB : String → List (Int × Int))
    (s : EngineState) (t : String)
    (hnodup : (s.blocks.map Block.id).Nodup) :
    (s.selected.isEmpty = true → swap_main SB s (some t) = (false, s)) ∧
    swap_main SB s none = (false, s) ∧
    (s.selected.isEmpty = false →
      (swap_main SB s (some t)).1 = true ∧
      (swap_main SB s (some t)).2.blocks =
        s.blocks.map fun c =>
          if c.id ∈ s.selected ∧ SB c.cell_name = SB t
          then { c with cell_name := t } else c) := by
  refine ⟨?_, ?_, ?_⟩
  · intro hemp
    unfold swap_main
    rw [if_pos hemp]
  · unfold swap_main
    by_cases hemp : s.selected.isEmpty = true
    · rw [if_pos hemp]
    · rw [if_neg hemp]
  · intro hemp
    unfold swap_main
    rw [if_neg (by rw [hemp]; exact Bool.false_ne_true)]
    exact ⟨rfl, swapFold_blocks s.selected s hnodup⟩

/-- Witness for C6: the amended theorem applied to the concrete two-block
state; its identities are distinct and a swap call without a chosen target
shape changes nothing. -/
theorem C6_witness :
    (exSwapState.blocks.map Block.id).Nodup ∧
    swap_main exSwapSB exSwapState none = (false, exSwapState) :=
  ⟨by decide, (C6_swap_per_block_semantics exSwapSB exSwapState "B" (by decide)).2.1⟩

/-- Claim C7 (confirmed).  Move to an absolute coordinate: the column
letters decode through base 26 (A maps to 0, Z to 25, AA to 26), the row
number is converted from 1-indexed to 0-indexed, and with exactly one
selected block the move succeeds exactly when every footprint cell at the
target anchor is inside the grid and empty or occupied by the moving block
itself; on success the block is re-anchored at the target with every other
field unchanged, on failure the state is untouched. -/
theorem C7_move_to_spec (s : EngineState) (colStr : String) (rowNum : Nat)
    (bid : Nat) (b : Block)
    (hsel : s.selected = [bid])
    (hfind : s.blocks.find? (fun c => c.id == bid) = some b) :
    ((move_to s colStr rowNum).1 = true ↔
      ∀ p ∈ b.shape,
        0 ≤ excel_col_to_index colStr + p.1 ∧
        excel_col_to_index colStr + p.1 < (s.W : Int) ∧
        0 ≤ (rowNum : Int) - 1 + p.2 ∧ (rowNum : Int) - 1 + p.2 < (s.H : Int) ∧
        (s.occ (excel_col_to_index colStr + p.1) ((rowNum : Int) - 1 + p.2) = none ∨
         s.occ (excel_col_to_index colStr + p.1) ((rowNum : Int) - 1 + p.2) = some b.id)) ∧
    ((move_to s colStr rowNum).1 = true →
      (move_to s colStr rowNum).2.blocks =
        s.blocks.map fun c =>
          if (c.id == bid) = true
          then { b with x := excel_col_to_index colStr, y := (rowNum : Int) - 1 }
          else c) ∧
    ((move_to s colStr rowNum).1 = false → (move_to s colStr rowNum).2 = s) ∧
    excel_col_to_index "A" = 0 ∧ excel_col_to_index "Z" = 25 ∧
    excel_col_to_index "AA" = 26 := by
  have hiff : can_move_to s.W s.H s.occ b
      (excel_col_to_index colStr - b.x) ((rowNum : Int) - 1 - b.y) = true ↔
      ∀ p ∈ b.shape,
        0 ≤ excel_col_to_index colStr + p.1 ∧
        excel_col_to_index colStr + p.1 < (s.W : Int) ∧
        0 ≤ (rowNum : Int) - 1 + p.2 ∧ (rowNum : Int) - 1 + p.2 < (s.H : Int) ∧
        (s.occ (excel_col_to_index colStr + p.1) ((rowNum : Int) - 1 + p.2) = none ∨
         s.occ (excel_col_to_index colStr + p.1) ((rowNum : Int) - 1 + p.2) = some b.id) := by
    rw [can_move_to_iff]
    have e1 : ∀ p : Int × Int,
        b.x + p.1 + (excel_col_to_index colStr - b.x) = excel_col_to_index colStr + p.1 :=
      fun p => by ring
    have e2 : ∀ p : Int × Int,
        b.y + p.2 + ((rowNum : Int) - 1 - b.y) = (rowNum : Int) - 1 + p.2 :=
      fun p => by ring
    constructor
    · intro h p hp
      have hh := h p hp
      rw [e1 p, e2 p] at hh
      exact hh
    · intro h p hp
      have hh := h p hp
      rw [e1 p, e2 p]
      exact hh
  unfold move_to
  rw [hsel]
  simp only []
  rw [hfind]
  simp only []
  by_cases hcm : can_move_to s.W s.H s.occ b
      (excel_col_to_index colStr - b.x) ((rowNum : Int) - 1 - b.y) = true
  · rw [if_pos hcm]
    refine ⟨?_, ?_, ?_, by decide, by decide, by decide⟩
    · simp only [true_iff]
      exact hiff.mp hcm
    · intro _
      simp only
      have hb2 : ({ b with
              x := b.x + (excel_col_to_index colStr - b.x),
              y := b.y + ((rowNum : Int) - 1 - b.y) } : Block) =
          { b with x := excel_col_to_index colStr, y := (rowNum : Int) - 1 } := by
        rw [show b.x + (excel_col_to_index colStr - b.x) = excel_col_to_index colStr
              from by ring,
            show b.y + ((rowNum : Int) - 1 - b.y) = (rowNum : Int) - 1 from by ring]
      rw [hb2]
    · intro hfalse
      cases hfalse
  · rw [if_neg hcm]
    refine ⟨?_, ?_, fun _ => rfl, by decide, by decide, by decide⟩
    · constructor
      · intro hfalse
        cases hfalse
      · intro hcon
        exact absurd (hiff.mpr hcon) hcm
    · intro htrue
      cases htrue

/-- Witness for C7: on the 3 x 3 grid with the single selected unit block 1
at cell 0 0, moving to target column B row 2 re-anchors the block at
cell 1 1. -/
theorem C7_witness :
    exMoveToState.selected = [1] ∧
    (move_to exMoveToState "B" 2).2.blocks =
      exMoveToState.blocks.map fun c =>
        if (c.id == 1) = true
        then ⟨1, "A", excel_col_to_index "B", ((2 : Nat) : Int) - 1, "R0", [(0, 0)]⟩
        else c := by
  have h := C7_move_to_spec exMoveToState "B" 2 1 ⟨1, "A", 0, 0, "R0", [(0, 0)]⟩ rfl rfl
  exact ⟨rfl, h.2.1 (by decide)⟩

/-- Claim C8 (confirmed).  Saving the block collection and loading it back
(Blockage records first, then the rest, with fresh identities) yields
blocks whose multiset of shape name, anchor and orientation tuples is a
permutation of that of the saved blocks, whenever every saved shape name
is in the catalog. -/
theorem C8_save_load_roundtrip (SB : List (String × List (Int × Int)))
    (blocks : List Block) (n : Nat)
    (hall : ∀ b ∈ blocks, (lookupSB SB b.cell_name).isSome = true) :
    ∃ bs, load_blocks SB (save_db blocks) n = .ok bs ∧
      (bs.map tupleOf).Perm (blocks.map tupleOf) := by
  have halldb : ∀ r ∈ (save_db blocks).filter isBlockageRec ++
      (save_db blocks).filter (fun r => !isBlockageRec r),
      (lookupSB SB r.2.cell_name).isSome = true := by
    intro r hr
    have hmem : r ∈ save_db blocks := by
      rcases List.mem_append.mp hr with h | h
      · exact (List.mem_filter.mp h).1
      · exact (List.mem_filter.mp h).1
    obtain ⟨b, hb, rfl⟩ := List.mem_map.mp hmem
    exact hall b hb
  have hok : (load_go SB ((save_db blocks).filter isBlockageRec ++
      (save_db blocks).filter (fun r => !isBlockageRec r)) n).isOk = true :=
    load_go_isOk.mpr halldb
  unfold load_blocks
  cases hres : load_go SB ((save_db blocks).filter isBlockageRec ++
      (save_db blocks).filter (fun r => !isBlockageRec r)) n with
  | error e =>
    rw [hres] at hok
    cases hok
  | ok bs =>
    refine ⟨bs, rfl, ?_⟩
    have hmap := load_go_ok_map hres
    rw [hmap]
    have hperm := (List.filter_append_perm isBlockageRec (save_db blocks)).map
      fun r : Nat × SavedRec => (r.2.cell_name, r.2.x, r.2.y, r.2.orientation)
    rw [List.map_append] at hperm
    rw [List.map_append]
    have heq : (save_db blocks).map
        (fun r : Nat × SavedRec => (r.2.cell_name, r.2.x, r.2.y, r.2.orientation)) =
        blocks.map tupleOf := by
      unfold save_db
      rw [List.map_map]
      rfl
    rw [heq] at hperm
    exact hperm

/-- Witness for C8: the three-block collection with one Blockage block
round-trips to a permutation of its tuples. -/
theorem C8_witness :
    (∀ b ∈ exSaveBlocks, (lookupSB exLoadSB b.cell_name).isSome = true) ∧
    ∃ bs, load_blocks exLoadSB (save_db exSaveBlocks) 0 = .ok bs ∧
      (bs.map tupleOf).Perm (exSaveBlocks.map tupleOf) :=
  ⟨by decide, C8_save_load_roundtrip exLoadSB exSaveBlocks 0 (by decide)⟩

/-- Claim C9, counterexample.  A persisted record naming the absent shape
Ghost followed by a record naming the known shape A: the load raises the
dictionary KeyError (modelled as an error result) instead of skipping the
record, and the record with the known shape is not loaded. -/
theorem C9_unknown_shape_aborts_load :
    load_blocks exLoadSB exGhostDb 0 = Except.error "Ghost" ∧
    (load_blocks exLoadSB exGhostDb 0).isOk = false :=
  ⟨rfl, rfl⟩

/-- Claim C9, amended.  Loading succeeds if and only if every persisted
record names a shape present in the catalog; a record with an unknown
shape makes the whole load fail with an uncaught lookup error rather than
being skipped with a warning. -/
theorem C9_load_succeeds_iff_all_shapes_known (SB : List (String × List (Int × Int)))
    (db : List (Nat × SavedRec)) (n : Nat) :
    (load_blocks SB db n).isOk = true ↔
      ∀ r ∈ db, (lookupSB SB r.2.cell_name).isSome = true := by
  unfold load_blocks
  rw [load_go_isOk]
  constructor
  · intro h r hr
    by_cases hb : isBlockageRec r = true
    · exact h r (List.mem_append.mpr (Or.inl (List.mem_filter.mpr ⟨hr, hb⟩)))
    · rw [Bool.not_eq_true] at hb
      exact h r (List.mem_append.mpr (Or.inr (List.mem_filter.mpr ⟨hr, by rw [hb]; rfl⟩)))
  · intro h r hr
    rcases List.mem_append.mp hr with hf | hf
    · exact h r (List.mem_filter.mp hf).1
    · exact h r (List.mem_filter.mp hf).1

/-- Claim C10, counterexample.  The claim states the equivalence of the
edge scan and the exhaustive scan under only two preconditions: full
rectangle footprints and unit step offsets.  They do not suffice: in the
agreement-broken occupancy where the foreign identity 9 sits on cell 1 0
inside the selected 2 x 2 rectangle block at cell 0 0 (a state the
move-commit bug of C1 can produce), the unit offset 1 0 is accepted by
the boundary scan — the foreign cell is interior to the shifted bounding
box, on no leading edge — while the exhaustive per-cell check rejects
it. -/
theorem C10_equivalence_needs_agreement :
    (exBrokenSel.map Block.shape) = [rectShape 2 2] ∧
    can_move_sel 3 2 exBrokenOcc exBrokenSel 1 0 = true ∧
    full_shift_check 3 2 (snapOf exBrokenOcc (exBrokenSel.map Block.id))
      exBrokenSel 1 0 = false :=
  ⟨by decide, by decide, by decide⟩

/-- Claim C10, amended.  For full-rectangle catalog footprints and unit
step offsets, and additionally for selected blocks whose footprints lie
inside the grid and whose cells are free in the snapshot with the selected
identities cleared (the agreement invariant restricted to the selection,
which the counterexample above shows cannot be dropped), the boundary-only
scan of can_move accepts exactly the moves accepted by the exhaustive
check of every shifted footprint cell of every selected block. -/
theorem C10_edge_scan_equals_full_scan (W H : Nat) (occ : Int → Int → Option Nat)
    (sel : List Block) (dx dy : Int)
    (hdx : dx = -1 ∨ dx = 0 ∨ dx = 1) (hdy : dy = -1 ∨ dy = 0 ∨ dy = 1)
    (hrect : ∀ b ∈ sel, ∃ w h : Nat, 1 ≤ w ∧ 1 ≤ h ∧ b.shape = rectShape w h)
    (hin : ∀ b ∈ sel, ∀ p ∈ b.shape,
      0 ≤ b.x + p.1 ∧ b.x + p.1 < (W : Int) ∧ 0 ≤ b.y + p.2 ∧ b.y + p.2 < (H : Int))
    (hfree : ∀ b ∈ sel, ∀ p ∈ b.shape,
      snapOf occ (sel.map Block.id) (b.x + p.1) (b.y + p.2) = none) :
    can_move_sel W H occ sel dx dy =
      full_shift_check W H (snapOf occ (sel.map Block.id)) sel dx dy := by
  unfold can_move_sel full_shift_check
  apply all_congr_mem
  intro b hb
  obtain ⟨w, h, hw, hh, hs⟩ := hrect b hb
  exact blockEdge_eq_full_of_rect hw hh hs hdx hdy (hin b hb) (hfree b hb)

/-- Witness for C10: the 3 x 3 grid with the selected unit block at
cell 1 1, moved one step right; the edge scan and the exhaustive scan
agree. -/
theorem C10_witness :
    ((1 : Int) = -1 ∨ (1 : Int) = 0 ∨ (1 : Int) = 1) ∧
    ((0 : Int) = -1 ∨ (0 : Int) = 0 ∨ (0 : Int) = 1) ∧
    (∀ b ∈ selBlocks exEqState, ∃ w h : Nat, 1 ≤ w ∧ 1 ≤ h ∧ b.shape = rectShape w h) ∧
    (∀ b ∈ selBlocks exEqState, ∀ p ∈ b.shape,
      0 ≤ b.x + p.1 ∧ b.x + p.1 < (3 : Int) ∧ 0 ≤ b.y + p.2 ∧ b.y + p.2 < (3 : Int)) ∧
    (∀ b ∈ selBlocks exEqState, ∀ p ∈ b.shape,
      snapOf exEqState.occ ((selBlocks exEqState).map Block.id)
        (b.x + p.1) (b.y + p.2) = none) ∧
    can_move_sel 3 3 exEqState.occ (selBlocks exEqState) 1 0 =
      full_shift_check 3 3 (snapOf exEqState.occ ((selBlocks exEqState).map Block.id))
        (selBlocks exEqState) 1 0 := by
  have hrect : ∀ b ∈ selBlocks exEqState,
      ∃ w h : Nat, 1 ≤ w ∧ 1 ≤ h ∧ b.shape = rectShape w h := by
    intro b hb
    have hsel : selBlocks exEqState = [⟨7, "A", 1, 1, "R0", rectShape 1 1⟩] := rfl
    rw [hsel] at hb
    rcases List.mem_singleton.mp hb with rfl
    exact ⟨1, 1, le_refl 1, le_refl 1, rfl⟩
  refine ⟨by decide, by decide, hrect, by decide, by decide, ?_⟩
  exact C10_edge_scan_equals_full_scan 3 3 exEqState.occ (selBlocks exEqState) 1 0
    (by decide) (by decide) hrect (by decide) (by decide)
